import Mathlib

/-!
Verification of the schema-tolerant CRUD/query layer of the `7_carbon_backend`
service (`src/main.go`).  The Go source is shallowly embedded: pure helper
functions become Lean functions over `String` / `List` / `Int` / `Rat`;
JSON-decoded Go values (`any`) become the inductive `GoValue`; the standard
library calls the handlers make (`strings.TrimSpace`, `strconv.ParseInt`,
`sort.Strings`, `encoding/json`) are modelled explicitly below, next to the
functions that use them.  Database side effects are represented by the
statements the code builds (query text, SET clauses, bound argument
sequences) and by abstract per-candidate query outcomes.
-/

/-! ## Go standard-library model: `strings.TrimSpace` and friends

`unicode.IsSpace` for the whitespace characters that can actually occur in
the service's payloads (ASCII whitespace plus NEL and NBSP). -/

def goIsSpace (c : Char) : Bool :=
  c = ' ' ∨ c = '\t' ∨ c = '\n' ∨ c = '\x0b' ∨ c = '\x0c' ∨ c = '\r' ∨
    c = '\x85' ∨ c = '\xa0'

/-- Character-list core of `strings.TrimSpace`: drop leading and trailing
whitespace. -/
def trimChars (l : List Char) : List Char :=
  ((l.dropWhile goIsSpace).reverse.dropWhile goIsSpace).reverse

/-- Model of Go `strings.TrimSpace`. -/
def goTrim (s : String) : String :=
  ⟨trimChars s.data⟩

theorem dropWhile_dropWhile (p : α → Bool) (l : List α) :
    (l.dropWhile p).dropWhile p = l.dropWhile p := by
  induction l with
  | nil => rfl
  | cons a l ih =>
    by_cases h : p a
    · simp [List.dropWhile, h, ih]
    · simp [List.dropWhile, h]

theorem dropWhile_head_eq_self (p : α → Bool) (l : List α)
    (h : ∀ a ∈ l.head?, p a = false) : l.dropWhile p = l := by
  cases l with
  | nil => rfl
  | cons a l =>
    have : p a = false := h a (by simp)
    simp [List.dropWhile, this]

theorem head_dropWhile_false (p : α → Bool) (l : List α) :
    ∀ a ∈ (l.dropWhile p).head?, p a = false := by
  induction l with
  | nil => simp
  | cons a l ih =>
    by_cases h : p a
    · simpa [List.dropWhile, h] using ih
    · simp [List.dropWhile, h]

theorem trimChars_idem (l : List Char) : trimChars (trimChars l) = trimChars l := by
  unfold trimChars
  set m := l.dropWhile goIsSpace with hm
  set r := (m.reverse.dropWhile goIsSpace).reverse with hr
  have hrrev : r.reverse = m.reverse.dropWhile goIsSpace := by
    simp [hr]
  -- `r` is left-trimmed: its head is the head of `m` (a non-space) when nonempty.
  have hdropr : r.dropWhile goIsSpace = r := by
    apply dropWhile_head_eq_self
    intro a ha
    cases hcr : r with
    | nil => simp [hcr] at ha
    | cons b rest =>
      rw [hcr] at ha
      simp at ha
      -- r is a prefix of m, so b is the head of m
      have hpre : r <+: m := by
        have hsuf : m.reverse.dropWhile goIsSpace <:+ m.reverse :=
          List.dropWhile_suffix goIsSpace
        have := List.reverse_prefix.mpr (by simpa [hr] using hsuf)
        simpa [hr] using this
      rcases hpre with ⟨t, ht⟩
      have hb : ∀ x ∈ m.head?, goIsSpace x = false := by
        rw [hm]; exact head_dropWhile_false goIsSpace l
      have hhead : m.head? = some b := by
        rw [← ht, hcr]; simp
      rw [← ha]
      exact hb b hhead
  rw [hdropr, hrrev, dropWhile_dropWhile]

theorem goTrim_idem (s : String) : goTrim (goTrim s) = goTrim s := by
  unfold goTrim
  exact congrArg String.mk (trimChars_idem s.data)

/-! ## Association-list model of Go `map[string]T` -/

/-- Lookup in a Go map rendered as an association list (`m[k]`). -/
def mapLookup {α : Type} (m : List (String × α)) (k : String) : Option α :=
  match m with
  | [] => none
  | (k', v) :: rest => if k' = k then some v else mapLookup rest k

/-- Assignment `m[k] = v` in a Go map rendered as an association list. -/
def mapSet {α : Type} (m : List (String × α)) (k : String) (v : α) :
    List (String × α) :=
  match m with
  | [] => [(k, v)]
  | (k', v') :: rest => if k' = k then (k, v) :: rest else (k', v') :: mapSet rest k v

theorem mapLookup_mapSet {α : Type} (m : List (String × α)) (k k' : String) (v : α) :
    mapLookup (mapSet m k v) k' = if k' = k then some v else mapLookup m k' := by
  induction m with
  | nil => by_cases h : k' = k <;> simp [mapSet, mapLookup, h, Ne.symm]
  | cons p rest ih =>
    obtain ⟨k₀, v₀⟩ := p
    by_cases h0 : k₀ = k
    · subst h0
      by_cases h : k' = k₀
      · simp [mapSet, mapLookup, h]
      · simp [mapSet, mapLookup, h, Ne.symm h]
    · by_cases h1 : k₀ = k'
      · subst h1
        simp [mapSet, mapLookup, h0]
      · simp [mapSet, mapLookup, h0, h1, ih]

theorem mapLookup_isSome_iff_mem_keys {α : Type} (m : List (String × α)) (k : String) :
    (mapLookup m k).isSome = true ↔ k ∈ m.map Prod.fst := by
  induction m with
  | nil => simp [mapLookup]
  | cons p rest ih =>
    obtain ⟨k₀, v₀⟩ := p
    by_cases h : k₀ = k
    · subst h; simp [mapLookup]
    · simp [mapLookup, h, ih, Ne.symm h]

theorem mapLookup_eq_none_iff_not_mem {α : Type} (m : List (String × α)) (k : String) :
    mapLookup m k = none ↔ k ∉ m.map Prod.fst := by
  rw [← mapLookup_isSome_iff_mem_keys]
  cases h : mapLookup m k <;> simp [h]

/-! ## JSON-decoded Go values

A value produced by `json.Unmarshal` into `any` (`nil`, `bool`, `float64`,
`string`, `[]any`, `map[string]any`).  JSON numbers are modelled as exact
rationals; `nanNum` stands for a non-JSON-representable `float64` (NaN/Inf),
the one kind of payload value Go's `json.Marshal` rejects.  `int` is a Go
`int64` — never produced by decoding, but produced by the CRUD layer
(`normalizeCRUDValue`, and the parsed resource id bound into statements). -/

inductive GoValue : Type where
  | null : GoValue
  | bool (b : Bool) : GoValue
  | num (q : Rat) : GoValue
  | int (n : Int) : GoValue
  | nanNum : GoValue
  | str (s : String) : GoValue
  | arr (elems : List GoValue) : GoValue
  | obj (fields : List (String × GoValue)) : GoValue

/-- `isEmptyJSONValue` (src/main.go:1730-1739): nil, or a string that is
empty after trimming whitespace. -/
def isEmptyJSONValue (value : GoValue) : Bool :=
  match value with
  | .null => true
  | .str text => goTrim text = ""
  | _ => false

/-- `sortedMapKeys` (src/main.go:1741-1748): the map's keys in `sort.Strings`
(lexicographic ascending) order. -/
def sortedMapKeys {α : Type} (values : List (String × α)) : List String :=
  List.insertionSort (· ≤ ·) (values.map Prod.fst)

/-- `quoteIdentifier` (src/main.go:1767-1769). -/
def quoteIdentifier (value : String) : String :=
  "\"" ++ value.replace "\"" "\"\"" ++ "\""

/-- `quoteTableName` (src/main.go:1771-1778). -/
def quoteTableName (value : String) : String :=
  String.intercalate "." ((value.splitOn ".").map (fun part => quoteIdentifier (goTrim part)))

/-! ### Model of `encoding/json.Marshal` on decoded values

Number formatting is abstracted (the exact digit string Go would emit is
irrelevant to every claim); everything else follows the library: `nil`,
booleans and strings marshal to their JSON forms, arrays elementwise, maps
with keys in sorted order, and NaN/Inf floats fail with an
`UnsupportedValueError`. -/

def jsonEscapeString (s : String) : String :=
  "\"" ++ (s.replace "\\" "\\\\").replace "\"" "\\\"" ++ "\""

def ratJSONText (q : Rat) : String :=
  if q.den = 1 then toString q.num else toString q

mutual

/-- `json.Marshal` on a decoded value: fails (returns `none`) exactly when
the value contains a `nanNum`. -/
def goMarshal : GoValue → Option String
  | .null => some "null"
  | .bool b => some (if b then "true" else "false")
  | .num q => some (ratJSONText q)
  | .int n => some (toString n)
  | .nanNum => none
  | .str s => some (jsonEscapeString s)
  | .arr elems =>
    match goMarshalList elems with
    | none => none
    | some parts => some ("[" ++ String.intercalate "," parts ++ "]")
  | .obj fields =>
    match goMarshalFields fields with
    | none => none
    | some parts => some ("\x7b" ++ String.intercalate "," parts ++ "\x7d")

def goMarshalList : List GoValue → Option (List String)
  | [] => some []
  | v :: rest =>
    match goMarshal v, goMarshalList rest with
    | some s, some ss => some (s :: ss)
    | _, _ => none

def goMarshalFields : List (String × GoValue) → Option (List String)
  | [] => some []
  | (k, v) :: rest =>
    match goMarshal v, goMarshalFields rest with
    | some s, some ss => some ((jsonEscapeString k ++ ":" ++ s) :: ss)
    | _, _ => none

end

/-! ## Table access configuration (src/main.go:1163-1297)

`tableCRUDConfig` and the static per-table registry built in
`registerAdminCRUDRoutes`.  The Go column sets (`map[string]struct{}` built
by `columnSet`) are rendered as literal lists used through membership. -/

structure tableCRUDConfig : Type where
  Path : String
  Table : String
  OrderBy : String
  MutableColumns : List String
  RequiredOnCreate : List String
  JSONColumns : List String := []
  TouchUpdatedAt : Bool := false
deriving DecidableEq, Repr

def bannersCRUD : tableCRUDConfig :=
  { Path := "/admin/banners", Table := "public.banners",
    OrderBy := "t.priority ASC, t.id ASC",
    MutableColumns := ["section", "title", "image_url", "priority"],
    RequiredOnCreate := ["section", "title", "image_url"] }

def contactCRUD : tableCRUDConfig :=
  { Path := "/admin/contact", Table := "public.contact", OrderBy := "t.id ASC",
    MutableColumns := ["phone_number", "address", "description", "email", "work_schedule"],
    RequiredOnCreate := [] }

def contactPageCRUD : tableCRUDConfig :=
  { Path := "/admin/contact_page", Table := "public.contact_page", OrderBy := "t.id ASC",
    MutableColumns := ["id", "phone_number", "address", "description", "image_url"],
    RequiredOnCreate := [] }

def aboutPageCRUD : tableCRUDConfig :=
  { Path := "/admin/about_page", Table := "public.about_page", OrderBy := "t.id ASC",
    MutableColumns := ["id", "banner_image_url", "banner_title", "history_description",
      "video_url", "mission_description", "mission_image_url"],
    RequiredOnCreate := [] }

def aboutMetricsCRUD : tableCRUDConfig :=
  { Path := "/admin/about_metrics", Table := "public.about_metrics",
    OrderBy := "t.position ASC, t.id ASC",
    MutableColumns := ["about_id", "metric_key", "metric_value", "metric_label", "position"],
    RequiredOnCreate := ["metric_key", "metric_value", "metric_label"] }

def aboutSectionsCRUD : tableCRUDConfig :=
  { Path := "/admin/about_sections", Table := "public.about_sections",
    OrderBy := "t.position ASC, t.id ASC",
    MutableColumns := ["about_id", "section_key", "title", "description", "position"],
    RequiredOnCreate := ["section_key", "title", "description"] }

def partnersCRUD : tableCRUDConfig :=
  { Path := "/admin/partners", Table := "public.partners",
    OrderBy := "t.position ASC, t.id ASC",
    MutableColumns := ["name", "logo_url", "position"],
    RequiredOnCreate := ["logo_url"] }

def tuningCRUD : tableCRUDConfig :=
  { Path := "/admin/tuning", Table := "public.tuning",
    OrderBy := "t.created_at DESC, t.id DESC",
    MutableColumns := ["brand", "model", "card_image_url", "full_image_url", "price",
      "description", "card_description", "full_description", "video_image_url", "video_link"],
    RequiredOnCreate := [],
    JSONColumns := ["full_image_url"],
    TouchUpdatedAt := true }

def serviceOfferingsCRUD : tableCRUDConfig :=
  { Path := "/admin/service_offerings", Table := "public.service_offerings",
    OrderBy := "t.position ASC, t.id ASC",
    MutableColumns := ["service_type", "title", "detailed_description", "gallery_images",
      "price_text", "position"],
    RequiredOnCreate := ["service_type", "title"],
    JSONColumns := ["gallery_images"],
    TouchUpdatedAt := true }

def privacySectionsCRUD : tableCRUDConfig :=
  { Path := "/admin/privacy_sections", Table := "public.privacy_sections",
    OrderBy := "t.position ASC, t.id ASC",
    MutableColumns := ["title", "description", "position"],
    RequiredOnCreate := ["title", "description"] }

def portfolioItemsCRUD : tableCRUDConfig :=
  { Path := "/admin/portfolio_items", Table := "public.portfolio_items",
    OrderBy := "t.created_at DESC, t.id DESC",
    MutableColumns := ["brand", "title", "image_url", "description", "youtube_link"],
    RequiredOnCreate := ["title", "image_url"] }

def workPostCRUD : tableCRUDConfig :=
  { Path := "/admin/work_post", Table := "public.work_post",
    OrderBy := "t.created_at DESC, t.id DESC",
    MutableColumns := ["title_model", "card_image_url", "full_image_url", "card_description",
      "work_list", "gallery_images", "full_description", "video_image_url", "video_link"],
    RequiredOnCreate := ["title_model"],
    JSONColumns := ["work_list", "gallery_images"],
    TouchUpdatedAt := true }

def blogPostsCRUD : tableCRUDConfig :=
  { Path := "/admin/blog_posts", Table := "public.blog_posts",
    OrderBy := "t.created_at DESC, t.id DESC",
    MutableColumns := ["title_model", "card_image_url", "full_image_url", "card_description",
      "work_list", "gallery_images", "full_description", "video_image_url", "video_link"],
    RequiredOnCreate := ["title_model"],
    JSONColumns := ["work_list", "gallery_images"],
    TouchUpdatedAt := true }

def consultationsCRUD : tableCRUDConfig :=
  { Path := "/admin/consultations", Table := "public.consultations",
    OrderBy := "t.created_at DESC, t.id DESC",
    MutableColumns := ["first_name", "last_name", "phone", "service_type", "car_model",
      "preferred_call_time", "comments", "status"],
    RequiredOnCreate := ["first_name", "last_name", "phone", "service_type"] }

/-- The static registry defined once at process start
(`registerAdminCRUDRoutes`, src/main.go:1181-1297). -/
def adminCRUDConfigs : List tableCRUDConfig :=
  [bannersCRUD, contactCRUD, contactPageCRUD, aboutPageCRUD, aboutMetricsCRUD,
   aboutSectionsCRUD, partnersCRUD, tuningCRUD, serviceOfferingsCRUD,
   privacySectionsCRUD, portfolioItemsCRUD, workPostCRUD, blogPostsCRUD,
   consultationsCRUD]

/-! ## Payload validation and value coercion (src/main.go:1712-1765) -/

/-- `validateCRUDPayload` (src/main.go:1712-1728).  The first loop flags every
payload key outside the allowed (mutable) set; the second flags every required
column whose payload value is missing or empty.  The Go error map is rendered
as an association list written through `mapSet`. -/
def validateCRUDPayload (payload : List (String × GoValue))
    (allowedColumns requiredColumns : List String) : List (String × String) :=
  let e1 := payload.foldl
    (fun errs kv =>
      if kv.1 ∈ allowedColumns then errs else mapSet errs kv.1 "field is not editable")
    []
  requiredColumns.foldl
    (fun errs key =>
      match mapLookup payload key with
      | none => mapSet errs key "field is required"
      | some value =>
        if isEmptyJSONValue value then mapSet errs key "field is required" else errs)
    e1

/-- The guard `number == float64(int64(number))` of src/main.go:1760: in the
exact-rational model of JSON numbers it holds exactly when the number is
integral and inside the `int64` range — an integral `float64` of magnitude
at least `2^63` cannot round-trip through `int64`, and a fractional number
is changed by the truncating conversion. -/
def int64RoundTrips (q : Rat) : Bool :=
  q.den = 1 ∧ -(2 ^ 63) ≤ q.num ∧ q.num ≤ 2 ^ 63 - 1

/-- `normalizeCRUDValue` (src/main.go:1750-1765).  JSON-encoded columns are
re-serialized to text; JSON numbers that round-trip through `int64` become
`int64`; everything else (including integral numbers outside the `int64`
range) is passed through. `.error` carries the message of the Go `error`
value. -/
def normalizeCRUDValue (column : String) (value : GoValue) (cfg : tableCRUDConfig) :
    Except String GoValue :=
  if column ∈ cfg.JSONColumns then
    match goMarshal value with
    | none => .error ("invalid JSON value for " ++ column)
    | some raw => .ok (.str raw)
  else
    match value with
    | .num q => if int64RoundTrips q then .ok (.int q.num) else .ok value
    | _ => .ok value

/-! ### Model of `encoding/json.Unmarshal`

A recursive-descent parser for JSON texts (raw `[]byte` inputs are modelled
as `String`).  `jparse` yields the decoded `GoValue` exactly when the input
is a single valid JSON value (with optional surrounding whitespace); the
typed unmarshal entry points below mirror how `json.Unmarshal` fills the
concrete Go target types used in src/main.go. -/

def jsonWs (c : Char) : Bool :=
  c = ' ' ∨ c = '\t' ∨ c = '\n' ∨ c = '\r'

def skipWs (cs : List Char) : List Char :=
  cs.dropWhile jsonWs

def isDigitChar (c : Char) : Bool :=
  '0' ≤ c ∧ c ≤ '9'

def chHexVal (c : Char) : Option Nat :=
  if '0' ≤ c ∧ c ≤ '9' then some (c.toNat - '0'.toNat)
  else if 'a' ≤ c ∧ c ≤ 'f' then some (c.toNat - 'a'.toNat + 10)
  else if 'A' ≤ c ∧ c ≤ 'F' then some (c.toNat - 'A'.toNat + 10)
  else none

/-- Body of a JSON string (after the opening quote): returns the decoded
characters and the remainder after the closing quote. -/
def parseStringChars : List Char → Option (List Char × List Char)
  | [] => none
  | c :: rest =>
    if c = '"' then some ([], rest)
    else if c = '\\' then
      match rest with
      | [] => none
      | e :: rest2 =>
        if e = '"' then (parseStringChars rest2).map (fun p => ('"' :: p.1, p.2))
        else if e = '\\' then (parseStringChars rest2).map (fun p => ('\\' :: p.1, p.2))
        else if e = '/' then (parseStringChars rest2).map (fun p => ('/' :: p.1, p.2))
        else if e = 'b' then (parseStringChars rest2).map (fun p => ('\x08' :: p.1, p.2))
        else if e = 'f' then (parseStringChars rest2).map (fun p => ('\x0c' :: p.1, p.2))
        else if e = 'n' then (parseStringChars rest2).map (fun p => ('\n' :: p.1, p.2))
        else if e = 'r' then (parseStringChars rest2).map (fun p => ('\r' :: p.1, p.2))
        else if e = 't' then (parseStringChars rest2).map (fun p => ('\t' :: p.1, p.2))
        else if e = 'u' then
          match rest2 with
          | h1 :: h2 :: h3 :: h4 :: rest3 =>
            match chHexVal h1, chHexVal h2, chHexVal h3, chHexVal h4 with
            | some a, some b, some c_, some d =>
              (parseStringChars rest3).map
                (fun p => (Char.ofNat (((a * 16 + b) * 16 + c_) * 16 + d) :: p.1, p.2))
            | _, _, _, _ => none
          | _ => none
        else none
    else if c.toNat < 0x20 then none
    else (parseStringChars rest).map (fun p => (c :: p.1, p.2))

/-- JSON number (RFC 8259 grammar), decoded to an exact rational. -/
def parseNumber (cs : List Char) : Option (Rat × List Char) :=
  let (neg, cs1) :=
    match cs with
    | '-' :: t => (true, t)
    | _ => (false, cs)
  let ipDigits := cs1.takeWhile isDigitChar
  let afterInt := cs1.dropWhile isDigitChar
  if ipDigits = [] then none
  else if ipDigits.length > 1 ∧ ipDigits.head? = some '0' then none
  else
    let ip : Nat := ipDigits.foldl (fun n c => n * 10 + (c.toNat - '0'.toNat)) 0
    let fracPart : Nat × Nat × List Char :=
      match afterInt with
      | '.' :: t =>
        let fd := t.takeWhile isDigitChar
        (fd.foldl (fun n c => n * 10 + (c.toNat - '0'.toNat)) 0, fd.length,
          t.dropWhile isDigitChar)
      | _ => (0, 0, afterInt)
    let fracVal := fracPart.1
    let fracLen := fracPart.2.1
    let afterFrac := fracPart.2.2
    -- a dot must be followed by at least one digit
    if (match afterInt with
        | '.' :: t => (t.takeWhile isDigitChar).isEmpty
        | _ => false) then none
    else
      let expPart : Bool × Bool × Nat × List Char :=
        match afterFrac with
        | 'e' :: t | 'E' :: t =>
          let sgn : Bool × List Char :=
            match t with
            | '-' :: u => (true, u)
            | '+' :: u => (false, u)
            | _ => (false, t)
          let ed := sgn.2.takeWhile isDigitChar
          (!ed.isEmpty, sgn.1, ed.foldl (fun n c => n * 10 + (c.toNat - '0'.toNat)) 0,
            sgn.2.dropWhile isDigitChar)
        | _ => (true, false, 0, afterFrac)
      let expOk := expPart.1
      let expNeg := expPart.2.1
      let expVal := expPart.2.2.1
      let afterExp := expPart.2.2.2
      if expOk = false then none
      else
        let mantissa : Rat := ((ip * 10 ^ fracLen + fracVal : Nat) : Rat) / ((10 ^ fracLen : Nat) : Rat)
        let scaled : Rat := if expNeg then mantissa / ((10 ^ expVal : Nat) : Rat)
          else mantissa * ((10 ^ expVal : Nat) : Rat)
        some ((if neg then -scaled else scaled), afterExp)

mutual

def parseValue (fuel : Nat) (cs : List Char) : Option (GoValue × List Char) :=
  match fuel with
  | 0 => none
  | fuel + 1 =>
    match skipWs cs with
    | [] => none
    | c :: rest =>
      if c = 'n' then
        match rest with
        | 'u' :: 'l' :: 'l' :: r => some (.null, r)
        | _ => none
      else if c = 't' then
        match rest with
        | 'r' :: 'u' :: 'e' :: r => some (.bool true, r)
        | _ => none
      else if c = 'f' then
        match rest with
        | 'a' :: 'l' :: 's' :: 'e' :: r => some (.bool false, r)
        | _ => none
      else if c = '"' then
        (parseStringChars rest).map (fun p => (.str ⟨p.1⟩, p.2))
      else if c = '[' then
        match skipWs rest with
        | ']' :: r => some (.arr [], r)
        | r => (parseElems fuel r).map (fun p => (.arr p.1, p.2))
      else if c = '\x7b' then
        match skipWs rest with
        | '\x7d' :: r => some (.obj [], r)
        | r => (parseFields fuel [] r).map (fun p => (.obj p.1, p.2))
      else if c = '-' ∨ isDigitChar c then
        (parseNumber (c :: rest)).map (fun p => (.num p.1, p.2))
      else none

def parseElems (fuel : Nat) (cs : List Char) : Option (List GoValue × List Char) :=
  match fuel with
  | 0 => none
  | fuel + 1 =>
    match parseValue fuel cs with
    | none => none
    | some (v, rest) =>
      match skipWs rest with
      | ',' :: r => (parseElems fuel r).map (fun p => (v :: p.1, p.2))
      | ']' :: r => some ([v], r)
      | _ => none

def parseFields (fuel : Nat) (acc : List (String × GoValue)) (cs : List Char) :
    Option (List (String × GoValue) × List Char) :=
  match fuel with
  | 0 => none
  | fuel + 1 =>
    match skipWs cs with
    | '"' :: rest =>
      match parseStringChars rest with
      | none => none
      | some (keyChars, rest2) =>
        match skipWs rest2 with
        | ':' :: rest3 =>
          match parseValue fuel rest3 with
          | none => none
          | some (v, rest4) =>
            -- duplicate keys overwrite (Go map semantics: last write wins)
            let acc' := mapSet acc ⟨keyChars⟩ v
            match skipWs rest4 with
            | ',' :: r => parseFields fuel acc' r
            | '\x7d' :: r => some (acc', r)
            | _ => none
        | _ => none
    | _ => none

end

/-- Top-level decode: a single JSON value, optional surrounding whitespace
(`json.Unmarshal` rejects empty input and trailing data). -/
def jparse (s : String) : Option GoValue :=
  match parseValue (s.data.length + 1) s.data with
  | some (v, rest) => if skipWs rest = [] then some v else none
  | none => none

/-- How `json.Unmarshal` fills one `string` element of a `[]string`: JSON
strings are taken as-is, JSON `null` leaves the zero value `""`, anything
else is a type error. -/
def elemAsGoString (v : GoValue) : Option String :=
  match v with
  | .str s => some s
  | .null => some ""
  | _ => none

/-- `json.Unmarshal(raw, &x)` for `x []string`: succeeds on a JSON array
whose elements are all strings (or nulls), and on JSON `null` (leaving the
nil slice). -/
def unmarshalStringList (raw : String) : Option (List String) :=
  match jparse raw with
  | some .null => some []
  | some (.arr vs) => vs.mapM elemAsGoString
  | _ => none

/-- `json.Unmarshal(raw, &x)` for `x []any`: succeeds on any JSON array and
on JSON `null`. -/
def unmarshalAnyList (raw : String) : Option (List GoValue) :=
  match jparse raw with
  | some .null => some []
  | some (.arr vs) => some vs
  | _ => none

/-- `json.Unmarshal(raw, &x)` for `x string`: succeeds on a JSON string and
on JSON `null` (leaving `""`). -/
def unmarshalGoString (raw : String) : Option String :=
  match jparse raw with
  | some .null => some ""
  | some (.str s) => some s
  | _ => none

/-! ## Response projection helpers (src/main.go:2434-2549, 773-786) -/

/-- `firstNonEmpty` (src/main.go:2434-2441): first value with non-blank trim,
returned untrimmed; `""` when none qualifies. -/
def firstNonEmpty (values : List String) : String :=
  match values with
  | [] => ""
  | v :: rest => if goTrim v ≠ "" then v else firstNonEmpty rest

/-- `nullStringValue` (src/main.go:2450-2455): a `sql.NullString` projected to
`""` when invalid, otherwise trimmed. -/
def nullStringValue (v : Option String) : String :=
  match v with
  | none => ""
  | some s => goTrim s

/-- Loop body of `uniqueNonEmpty` (src/main.go:2457-2473): `seen` is the Go
`seen` set, entries are trimmed, blanks and already-seen values are skipped. -/
def uniqueNonEmptyGo (seen : List String) : List String → List String
  | [] => []
  | value :: rest =>
    let clean := goTrim value
    if clean = "" then uniqueNonEmptyGo seen rest
    else if clean ∈ seen then uniqueNonEmptyGo seen rest
    else clean :: uniqueNonEmptyGo (clean :: seen) rest

/-- `uniqueNonEmpty` (src/main.go:2457-2473). -/
def uniqueNonEmpty (values : List String) : List String :=
  uniqueNonEmptyGo [] values

/-- The filtering loop that `parseStringArray` (src/main.go:2513-2549) runs
over a decoded `[]string` (both for the direct and the nested-encoded case):
trim each entry, drop blanks, keep everything else — duplicates included. -/
def collectNonEmptyTrimmed (items : List String) : List String :=
  match items with
  | [] => []
  | item :: rest =>
    let clean := goTrim item
    if clean = "" then collectNonEmptyTrimmed rest
    else clean :: collectNonEmptyTrimmed rest

/-- `parseStringArray` (src/main.go:2513-2549). -/
def parseStringArray (raw : String) : List String :=
  if raw.length = 0 then []
  else
    match unmarshalStringList raw with
    | some items => collectNonEmptyTrimmed items
    | none =>
      -- Handle case when JSONB contains a string with encoded JSON array.
      match unmarshalGoString raw with
      | some encoded =>
        match unmarshalStringList encoded with
        | some nested => collectNonEmptyTrimmed nested
        | none => []
      | none => []

/-- The fixed key-priority list of `parsePerformedWorks`
(src/main.go:2496). -/
def performedWorkKeys : List String :=
  ["step", "title", "name", "text", "description"]

/-- Inner key loop of `parsePerformedWorks` (src/main.go:2496-2506): the
first key whose value is a string with a non-blank trim contributes that
string (untrimmed); a present key with a non-string or blank value falls
through to the next key. -/
def firstPriorityValue (v : List (String × GoValue)) : List String → Option String
  | [] => none
  | key :: keys =>
    match mapLookup v key with
    | some (.str text) =>
      if goTrim text ≠ "" then some text else firstPriorityValue v keys
    | some _ => firstPriorityValue v keys
    | none => firstPriorityValue v keys

/-- Element loop of `parsePerformedWorks` (src/main.go:2490-2508): string
elements contribute themselves, object elements contribute their first
priority-key hit, other elements contribute nothing. -/
def collectWorks : List GoValue → List String
  | [] => []
  | item :: rest =>
    match item with
    | .str v => v :: collectWorks rest
    | .obj m =>
      match firstPriorityValue m performedWorkKeys with
      | some text => text :: collectWorks rest
      | none => collectWorks rest
    | _ => collectWorks rest

/-- `parsePerformedWorks` (src/main.go:2475-2511). -/
def parsePerformedWorks (raw : String) : List String :=
  if raw.length = 0 then []
  else
    match unmarshalStringList raw with
    | some asStrings => uniqueNonEmpty asStrings
    | none =>
      match unmarshalAnyList raw with
      | none => []
      | some asAny => uniqueNonEmpty (collectWorks asAny)

/-- Gallery-image projection of `workPostHandler` (src/main.go:783-786):
the parsed gallery column, or the fallback built from the candidate image
columns when the parse yields nothing. -/
def workPostGalleryImages (cardURL fullURL videoImage : String)
    (galleryImagesRaw : String) : List String :=
  let galleryImages := parseStringArray galleryImagesRaw
  if galleryImages.length = 0 then uniqueNonEmpty [cardURL, fullURL, videoImage]
  else galleryImages

/-- Modelled from the spec: "deduplicated (order-preserving, first occurrence
wins)" — keep each first occurrence, erase its later duplicates.  Used only
on the specification side, to be compared with `uniqueNonEmpty`. -/
def specDedupFirstWins (l : List String) : List String :=
  match l with
  | [] => []
  | x :: xs => x :: specDedupFirstWins (xs.filter (fun y => y ≠ x))
termination_by l.length
decreasing_by
  simp only [List.length_cons]
  exact Nat.lt_succ_of_le (List.length_filter_le _ _)

/-! ## Cascading query executor (src/main.go:148-160, 516-527)

The inline loop `for _, query := range queries { rows, err = Query(q); if
err == nil { break } }` followed by `if err != nil { http.Error(...) }`.
Each candidate's execution outcome is abstracted as `ok rows` or `fail e`
(a failing `QueryContext` returns a nil `rows`).  `cascadeRun` returns the
final `(rows, err)` pair together with the list of candidates that were
actually executed, in execution order. -/

inductive QueryOutcome (ρ ε : Type) : Type where
  | ok (rows : ρ) : QueryOutcome ρ ε
  | fail (e : ε) : QueryOutcome ρ ε
deriving DecidableEq, Repr

def QueryOutcome.isFail {ρ ε : Type} : QueryOutcome ρ ε → Bool
  | .ok _ => false
  | .fail _ => true

def cascadeRun {ρ ε : Type} (st : Option ρ × Option ε) (qs : List (QueryOutcome ρ ε)) :
    (Option ρ × Option ε) × List (QueryOutcome ρ ε) :=
  match qs with
  | [] => (st, [])
  | q :: rest =>
    match q with
    | .ok r => ((some r, none), [q])
    | .fail e =>
      let res := cascadeRun (none, some e) rest
      (res.1, q :: res.2)

/-- What the handler does right after the loop: `if err != nil` responds with
the handler's fixed generic 500 message (the error itself is at most
logged), otherwise the handler proceeds with the rows of the successful
candidate. -/
inductive HandlerStep (ρ : Type) : Type where
  | respondError (status : Nat) (msg : String) : HandlerStep ρ
  | proceed (rows : Option ρ) : HandlerStep ρ
deriving DecidableEq, Repr

def cascadeHandlerStep {ρ ε : Type} (failMsg : String) (qs : List (QueryOutcome ρ ε)) :
    HandlerStep ρ :=
  let st := (cascadeRun (none, none) qs).1
  match st.2 with
  | some _ => .respondError 500 failMsg
  | none => .proceed st.1

def lastCandidateError {ρ ε : Type} : Option (QueryOutcome ρ ε) → Option ε
  | some (.fail e) => some e
  | _ => none

/-! ## Resource identifier parsing (src/main.go:1651-1682)

`parseResourceID` with the request modelled by the string the code reads:
`queryID` is `r.URL.Query().Get("id")` (`""` when the parameter is absent)
and `urlPath` is `r.URL.Path`. -/

def goHasPrefixStr (s pre : String) : Bool :=
  pre.data.isPrefixOf s.data

def goTrimPrefixStr (s pre : String) : String :=
  if goHasPrefixStr s pre then ⟨s.data.drop pre.data.length⟩ else s

def goTrimSuffixStr (s suf : String) : String :=
  if suf.data.isSuffixOf s.data then ⟨s.data.take (s.data.length - suf.data.length)⟩ else s

def goContainsChar (s : String) (c : Char) : Bool :=
  s.data.contains c

def digitsVal (ds : List Char) : Nat :=
  ds.foldl (fun n c => n * 10 + (c.toNat - '0'.toNat)) 0

/-- Model of Go `strconv.ParseInt(s, 10, 64)`: optional sign, a non-empty
run of decimal digits, and an `int64` range check. -/
def goParseInt64 (s : String) : Option Int :=
  match s.data with
  | [] => none
  | c :: rest =>
    let signDigits : Bool × List Char :=
      if c = '-' then (true, rest)
      else if c = '+' then (false, rest)
      else (false, c :: rest)
    let neg := signDigits.1
    let digits := signDigits.2
    if digits = [] then none
    else if digits.all isDigitChar then
      let v : Int := if neg then -(digitsVal digits : Int) else (digitsVal digits : Int)
      if -(2 ^ 63) ≤ v ∧ v ≤ 2 ^ 63 - 1 then some v else none
    else none

inductive ResourceIDResult : Type where
  | collection : ResourceIDResult
  | ident (id : Int) : ResourceIDResult
  | invalid : ResourceIDResult
deriving DecidableEq, Repr

/-- `parseResourceID` (src/main.go:1651-1682). `collection` is `(0, false,
nil)`, `ident id` is `(id, true, nil)` and `invalid` is any error return
(the handler answers 400 "invalid id" in that case). -/
def parseResourceID (queryID : String) (urlPath : String) (basePath : String) :
    ResourceIDResult :=
  let idParam := goTrim queryID
  if idParam ≠ "" then
    match goParseInt64 idParam with
    | none => .invalid
    | some id => .ident id
  else
    let base := goTrimSuffixStr basePath "/"
    let path := goTrimSuffixStr (goTrim urlPath) "/"
    if path = base then .collection
    else if !(goHasPrefixStr path (base ++ "/")) then .collection
    else
      let idPart := goTrimPrefixStr path (base ++ "/")
      if idPart = "" then .collection
      else if goContainsChar idPart '/' then .invalid
      else
        match goParseInt64 idPart with
        | none => .invalid
        | some id => .ident id

/-! ## Admin create / update statement building (src/main.go:1443-1607)

`adminCreateOne` / `adminUpdateOne` up to the point where the single atomic
SQL statement is handed to the driver: the result is the statement text and
the bound argument sequence (or the error response the handler returns
first). -/

inductive CRUDError : Type where
  | validationFailed (errs : List (String × String)) : CRUDError
  | emptyPayload : CRUDError
  | invalidValue (msg : String) : CRUDError
deriving DecidableEq, Repr

structure SQLStatement : Type where
  query : String
  args : List GoValue

structure UpdateStatement : Type where
  setClauses : List String
  query : String
  args : List GoValue

/-- Column/placeholder/argument loop of `adminCreateOne`
(src/main.go:1472-1487), over the sorted payload keys. -/
def buildInsertParts (cfg : tableCRUDConfig) (payload : List (String × GoValue)) :
    List String → Nat → Except String (List String × List String × List GoValue)
  | [], _ => .ok ([], [], [])
  | key :: keys, idx =>
    match normalizeCRUDValue key ((mapLookup payload key).getD .null) cfg with
    | .error msg => .error msg
    | .ok value =>
      match buildInsertParts cfg payload keys (idx + 1) with
      | .error msg => .error msg
      | .ok (cols, phs, args) =>
        .ok (quoteIdentifier key :: cols, ("$" ++ toString (idx + 1)) :: phs, value :: args)

/-- `adminCreateOne` (src/main.go:1443-1521) up to statement execution. -/
def adminCreateBuild (cfg : tableCRUDConfig) (payload : List (String × GoValue)) :
    Except CRUDError SQLStatement :=
  let verrs := validateCRUDPayload payload cfg.MutableColumns cfg.RequiredOnCreate
  if verrs ≠ [] then .error (.validationFailed verrs)
  else
    let keys := sortedMapKeys payload
    if keys = [] then
      .ok { query := "WITH ins AS (INSERT INTO " ++ quoteTableName cfg.Table ++
              " DEFAULT VALUES RETURNING *) SELECT to_jsonb(ins) FROM ins",
            args := [] }
    else
      match buildInsertParts cfg payload keys 0 with
      | .error msg => .error (.invalidValue msg)
      | .ok (cols, phs, args) =>
        .ok { query := "WITH ins AS (INSERT INTO " ++ quoteTableName cfg.Table ++ " (" ++
                String.intercalate ", " cols ++ ") VALUES (" ++
                String.intercalate ", " phs ++ ") RETURNING *) SELECT to_jsonb(ins) FROM ins",
              args := args }

/-- SET-clause/argument loop of `adminUpdateOne` (src/main.go:1550-1563),
over the sorted payload keys. -/
def buildSetClauses (cfg : tableCRUDConfig) (payload : List (String × GoValue)) :
    List String → Nat → Except String (List String × List GoValue)
  | [], _ => .ok ([], [])
  | key :: keys, idx =>
    match normalizeCRUDValue key ((mapLookup payload key).getD .null) cfg with
    | .error msg => .error msg
    | .ok value =>
      match buildSetClauses cfg payload keys (idx + 1) with
      | .error msg => .error msg
      | .ok (cls, args) =>
        .ok ((quoteIdentifier key ++ " = $" ++ toString (idx + 1)) :: cls, value :: args)

/-- `adminUpdateOne` (src/main.go:1523-1607) up to statement execution:
update validation passes `nil` as the required set, the empty-payload check
is skipped when the descriptor requests an updated-at touch, and the touch
appends `updated_at = NOW()` after the payload columns. -/
def adminUpdateBuild (cfg : tableCRUDConfig) (payload : List (String × GoValue))
    (id : Int) : Except CRUDError UpdateStatement :=
  let verrs := validateCRUDPayload payload cfg.MutableColumns []
  if verrs ≠ [] then .error (.validationFailed verrs)
  else
    let keys := sortedMapKeys payload
    if keys = [] ∧ cfg.TouchUpdatedAt = false then .error .emptyPayload
    else
      match buildSetClauses cfg payload keys 0 with
      | .error msg => .error (.invalidValue msg)
      | .ok (cls, args) =>
        let setClauses := if cfg.TouchUpdatedAt then cls ++ ["updated_at = NOW()"] else cls
        .ok { setClauses := setClauses,
              query := "WITH upd AS (UPDATE " ++ quoteTableName cfg.Table ++ " SET " ++
                String.intercalate ", " setClauses ++ " WHERE id = $" ++
                toString (args.length + 1) ++ " RETURNING *) SELECT to_jsonb(upd) FROM upd",
              args := args ++ [GoValue.int id] }

/-! ## Cascade lemmas -/

theorem cascadeRun_all_fail {ρ ε : Type} :
    ∀ (qs : List (QueryOutcome ρ ε)) (st : Option ρ × Option ε),
      (∀ q ∈ qs, q.isFail = true) → qs ≠ [] →
      cascadeRun st qs = ((none, lastCandidateError qs.getLast?), qs) := by
  intro qs
  induction qs with
  | nil => intro st _ hne; exact absurd rfl hne
  | cons q rest ih =>
    intro st hall _
    cases q with
    | ok r =>
      have hbad := hall (.ok r) (by simp)
      simp [QueryOutcome.isFail] at hbad
    | fail e =>
      cases rest with
      | nil => simp [cascadeRun, lastCandidateError]
      | cons q' rest' =>
        have hall' : ∀ x ∈ q' :: rest', QueryOutcome.isFail x = true := by
          intro x hx; exact hall x (by simp [hx])
        have hrec := ih (none, some e) hall' (by simp)
        have hstep : cascadeRun st (QueryOutcome.fail e :: q' :: rest') =
            ((cascadeRun (none, some e) (q' :: rest')).1,
              .fail e :: (cascadeRun (none, some e) (q' :: rest')).2) := rfl
        rw [hstep, hrec]
        simp [List.getLast?_cons_cons]

theorem lastError_of_all_fail {ρ ε : Type} :
    ∀ (qs : List (QueryOutcome ρ ε)), (∀ q ∈ qs, q.isFail = true) → qs ≠ [] →
      ∃ e, lastCandidateError qs.getLast? = some e := by
  intro qs
  induction qs with
  | nil => intro _ hne; exact absurd rfl hne
  | cons q rest ih =>
    intro hall _
    cases rest with
    | nil =>
      cases q with
      | ok r =>
        have hbad := hall (.ok r) (by simp)
        simp [QueryOutcome.isFail] at hbad
      | fail e => exact ⟨e, by simp [lastCandidateError]⟩
    | cons q' rest' =>
      have hall' : ∀ x ∈ q' :: rest', QueryOutcome.isFail x = true := by
        intro x hx; exact hall x (by simp [hx])
      obtain ⟨e, he⟩ := ih hall' (by simp)
      exact ⟨e, by simpa [List.getLast?_cons_cons] using he⟩

theorem cascadeRun_first_success {ρ ε : Type} :
    ∀ (pre : List (QueryOutcome ρ ε)) (r : ρ) (post : List (QueryOutcome ρ ε))
      (st : Option ρ × Option ε), (∀ q ∈ pre, q.isFail = true) →
      cascadeRun st (pre ++ .ok r :: post) = ((some r, none), pre ++ [.ok r]) := by
  intro pre
  induction pre with
  | nil => intro r post st _; simp [cascadeRun]
  | cons q pre' ih =>
    intro r post st hall
    cases q with
    | ok r' =>
      have hbad := hall (.ok r') (by simp)
      simp [QueryOutcome.isFail] at hbad
    | fail e =>
      have hall' : ∀ x ∈ pre', QueryOutcome.isFail x = true := by
        intro x hx; exact hall x (by simp [hx])
      have hstep : cascadeRun st (QueryOutcome.fail e :: (pre' ++ .ok r :: post)) =
          ((cascadeRun (none, some e) (pre' ++ .ok r :: post)).1,
            .fail e :: (cascadeRun (none, some e) (pre' ++ .ok r :: post)).2) := rfl
      rw [List.cons_append, hstep, ih r post (none, some e) hall']
      rfl

/-- C1: the cascading query executor runs candidates strictly in list order;
the first candidate that succeeds ends the loop with its result set (later
candidates are never executed, the executed list is exactly the failing
prefix plus the successful candidate); if every candidate fails, the final
error is the last candidate's error and the handler answers with its fixed
generic failure message. -/
theorem c1_cascading_executor {ρ ε : Type} (qs : List (QueryOutcome ρ ε))
    (hne : qs ≠ []) (failMsg : String) :
    (∀ (pre : List (QueryOutcome ρ ε)) (r : ρ) (post : List (QueryOutcome ρ ε)),
      qs = pre ++ .ok r :: post → (∀ q ∈ pre, q.isFail = true) →
      cascadeRun (none, none) qs = ((some r, none), pre ++ [.ok r]) ∧
      cascadeHandlerStep failMsg qs = .proceed (some r)) ∧
    ((∀ q ∈ qs, q.isFail = true) →
      cascadeRun (none, none) qs = ((none, lastCandidateError qs.getLast?), qs) ∧
      cascadeHandlerStep failMsg qs = .respondError 500 failMsg) := by
  constructor
  · intro pre r post hdecomp hfail
    have hrun := cascadeRun_first_success pre r post ((none, none) : Option ρ × Option ε) hfail
    rw [hdecomp]
    refine ⟨hrun, ?_⟩
    simp [cascadeHandlerStep, hrun]
  · intro hall
    have hrun := cascadeRun_all_fail qs ((none, none) : Option ρ × Option ε) hall hne
    refine ⟨hrun, ?_⟩
    obtain ⟨e, he⟩ := lastError_of_all_fail qs hall hne
    simp [cascadeHandlerStep, hrun, he]

/-- Witness for C1 at the spec's example `[Q1 fails, Q2 succeeds, Q3
succeeds]`: the result is Q2's rows and Q3 is never executed. -/
theorem c1_cascading_executor_witness :
    cascadeRun ((none, none) : Option Nat × Option String)
        [.fail "Q1 failed", .ok 2, .ok 3] = ((some 2, none), [.fail "Q1 failed", .ok 2]) ∧
    cascadeHandlerStep "failed to fetch banners"
        [QueryOutcome.fail "Q1 failed", QueryOutcome.ok 2, QueryOutcome.ok 3] =
      .proceed (some 2) :=
  (c1_cascading_executor
      ([.fail "Q1 failed", .ok 2, .ok 3] : List (QueryOutcome Nat String))
      (by decide) "failed to fetch banners").1
    [.fail "Q1 failed"] 2 [.ok 3] rfl (by decide)

/-- C9 counterexample: on an empty candidate list the loop body never runs,
`err` stays nil, and the handler takes the success path (it proceeds with a
nil result set) — it does not fail, and the program has no
`ConfigurationError` response at all. -/
theorem c9_counterexample_empty_list_proceeds :
    cascadeHandlerStep "failed to fetch banners" ([] : List (QueryOutcome Nat String)) =
      .proceed none ∧
    HandlerStep.proceed (none : Option Nat) ≠ .respondError 500 "failed to fetch banners" := by
  decide

/-- C9 (amended): the inline cascading loops perform no empty-list check;
given an empty candidate list the loop leaves both the result set and the
error nil and the handler proceeds past its error check instead of failing
(in the program every candidate list is a non-empty literal, so the case is
unreachable). -/
theorem c9_amended_empty_candidates (failMsg : String) :
    ∀ (ρ ε : Type),
      cascadeRun ((none, none) : Option ρ × Option ε) [] = ((none, none), []) ∧
      cascadeHandlerStep failMsg ([] : List (QueryOutcome ρ ε)) = .proceed none := by
  intro ρ ε
  exact ⟨rfl, rfl⟩

/-- C8: for every descriptor in the static registry, the required-on-create
columns are a subset of the mutable columns. -/
theorem c8_required_subset_mutable :
    ∀ cfg ∈ adminCRUDConfigs, ∀ column ∈ cfg.RequiredOnCreate,
      column ∈ cfg.MutableColumns := by
  decide

/-- Witness for C8 at the banners descriptor and its required column
`image_url`. -/
theorem c8_required_subset_mutable_witness :
    bannersCRUD ∈ adminCRUDConfigs ∧ "image_url" ∈ bannersCRUD.RequiredOnCreate ∧
      "image_url" ∈ bannersCRUD.MutableColumns :=
  ⟨by decide, by decide,
    c8_required_subset_mutable bannersCRUD (by decide) "image_url" (by decide)⟩

/-- C5 counterexample: the integral JSON number `2^63` lies outside the
`int64` range, so the guard `number == float64(int64(number))` fails and the
code passes the value through unchanged instead of binding it as an integer
— refuting the claim that every JSON number with no fractional part is
returned as an integer. -/
theorem c5_counterexample_out_of_range_integer :
    (9223372036854775808 : Rat).den = 1 ∧
    "priority" ∉ bannersCRUD.JSONColumns ∧
    normalizeCRUDValue "priority" (.num 9223372036854775808) bannersCRUD =
      .ok (.num 9223372036854775808) ∧
    (Except.ok (GoValue.num 9223372036854775808) : Except String GoValue) ≠
      .ok (.int 9223372036854775808) := by
  refine ⟨by decide, by decide, rfl, ?_⟩
  intro h
  exact GoValue.noConfusion (Except.ok.inj h)

/-- C5 (amended): value coercion re-serializes JSON-encoded columns to JSON
text (and reports `invalid JSON value for <column>` naming the offending
column when serialization fails); otherwise a JSON number with no fractional
part that round-trips through `int64` (lies in the `int64` range) is bound
as an integer, and every other value — integral numbers outside that range
included — is passed through unchanged. -/
theorem c5_normalizeCRUDValue_spec :
    ∀ (column : String) (value : GoValue) (cfg : tableCRUDConfig),
      (column ∈ cfg.JSONColumns →
        (∀ raw, goMarshal value = some raw →
          normalizeCRUDValue column value cfg = .ok (.str raw)) ∧
        (goMarshal value = none →
          normalizeCRUDValue column value cfg =
            .error ("invalid JSON value for " ++ column))) ∧
      (column ∉ cfg.JSONColumns →
        (∀ q, value = .num q → int64RoundTrips q = true →
          normalizeCRUDValue column value cfg = .ok (.int q.num)) ∧
        (∀ q, value = .num q → int64RoundTrips q = false →
          normalizeCRUDValue column value cfg = .ok value) ∧
        ((∀ q, value ≠ .num q) →
          normalizeCRUDValue column value cfg = .ok value)) := by
  intro column value cfg
  constructor
  · intro hmem
    constructor
    · intro raw hraw
      simp [normalizeCRUDValue, hmem, hraw]
    · intro hnone
      simp [normalizeCRUDValue, hmem, hnone]
  · intro hmem
    refine ⟨?_, ?_, ?_⟩
    · intro q hq hrt
      subst hq
      simp [normalizeCRUDValue, hmem, hrt]
    · intro q hq hrt
      subst hq
      simp [normalizeCRUDValue, hmem, hrt]
    · intro hq
      cases value with
      | num q => exact absurd rfl (hq q)
      | null => simp [normalizeCRUDValue, hmem]
      | bool b => simp [normalizeCRUDValue, hmem]
      | int n => simp [normalizeCRUDValue, hmem]
      | nanNum => simp [normalizeCRUDValue, hmem]
      | str s => simp [normalizeCRUDValue, hmem]
      | arr elems => simp [normalizeCRUDValue, hmem]
      | obj fields => simp [normalizeCRUDValue, hmem]

/-- Witness for C5 (amended): the non-JSON column `priority` of the banners
descriptor binds the integral, in-range JSON number `5` as the integer
`5`. -/
theorem c5_normalizeCRUDValue_spec_witness :
    "priority" ∉ bannersCRUD.JSONColumns ∧ int64RoundTrips 5 = true ∧
      normalizeCRUDValue "priority" (.num 5) bannersCRUD = .ok (.int 5) :=
  ⟨by decide, by decide,
    ((c5_normalizeCRUDValue_spec "priority" (.num 5) bannersCRUD).2
        (by decide)).1 5 rfl (by decide)⟩

/-! ## Validation characterization (for C2 and C10) -/

/-- The condition of the required-field check in `validateCRUDPayload`:
`value, ok := payload[key]; !ok || isEmptyJSONValue(value)`. -/
def missingOrEmpty (payload : List (String × GoValue)) (k : String) : Bool :=
  match mapLookup payload k with
  | none => true
  | some v => isEmptyJSONValue v

theorem validate_loop1_lookup (allowed : List String) :
    ∀ (payload : List (String × GoValue)) (errs : List (String × String)) (k : String),
      mapLookup (payload.foldl
        (fun errs kv =>
          if kv.1 ∈ allowed then errs else mapSet errs kv.1 "field is not editable") errs) k =
        if k ∈ payload.map Prod.fst ∧ k ∉ allowed then some "field is not editable"
        else mapLookup errs k := by
  intro payload
  induction payload with
  | nil => intro errs k; simp
  | cons p ps ih =>
    obtain ⟨a, v⟩ := p
    intro errs k
    rw [List.foldl_cons, ih]
    by_cases hk : k = a
    · subst hk
      by_cases hpa : k ∈ allowed
      · simp [hpa]
      · simp [hpa, mapLookup_mapSet]
    · by_cases hpa : a ∈ allowed
      · rw [if_pos hpa]
        have hmem : (k ∈ a :: List.map Prod.fst ps) ↔ (k ∈ List.map Prod.fst ps) := by
          simp [hk]
        simp only [List.map_cons, hmem]
      · rw [if_neg hpa]
        have hmem : (k ∈ a :: List.map Prod.fst ps) ↔ (k ∈ List.map Prod.fst ps) := by
          simp [hk]
        simp only [List.map_cons, hmem, mapLookup_mapSet]
        rw [if_neg hk]

theorem validate_loop2_lookup (payload : List (String × GoValue)) :
    ∀ (required : List String) (errs : List (String × String)) (k : String),
      mapLookup (required.foldl
        (fun errs key =>
          match mapLookup payload key with
          | none => mapSet errs key "field is required"
          | some value =>
            if isEmptyJSONValue value then mapSet errs key "field is required"
            else errs) errs) k =
        if k ∈ required ∧ missingOrEmpty payload k = true then some "field is required"
        else mapLookup errs k := by
  intro required
  induction required with
  | nil => intro errs k; simp
  | cons r rs ih =>
    intro errs k
    rw [List.foldl_cons, ih]
    by_cases hk : k = r
    · subst hk
      cases hpv : mapLookup payload k with
      | none =>
        have hmiss : missingOrEmpty payload k = true := by simp [missingOrEmpty, hpv]
        simp [hpv, hmiss, mapLookup_mapSet]
      | some v =>
        by_cases hemp : isEmptyJSONValue v = true
        · have hmiss : missingOrEmpty payload k = true := by
            simp [missingOrEmpty, hpv, hemp]
          simp [hpv, hemp, hmiss, mapLookup_mapSet]
        · have hmiss : ¬missingOrEmpty payload k = true := by
            simp [missingOrEmpty, hpv, hemp]
          simp [hpv, hemp, hmiss]
    · cases hpv : mapLookup payload r with
      | none => simp [hpv, mapLookup_mapSet, hk, List.mem_cons]
      | some v =>
        by_cases hemp : isEmptyJSONValue v = true
        · simp [hpv, hemp, mapLookup_mapSet, hk, List.mem_cons]
        · simp [hpv, hemp, hk, List.mem_cons]

/-- Field-error characterization of `validateCRUDPayload`: a key maps to
`field is required` when it is a required column with a missing/empty value
(the second loop overwrites the first), to `field is not editable` when it
is a payload key outside the allowed set, and to nothing otherwise. -/
theorem validateCRUDPayload_lookup (payload : List (String × GoValue))
    (allowed required : List String) (k : String) :
    mapLookup (validateCRUDPayload payload allowed required) k =
      if k ∈ required ∧ missingOrEmpty payload k = true then some "field is required"
      else if k ∈ payload.map Prod.fst ∧ k ∉ allowed then some "field is not editable"
      else none := by
  show mapLookup
      ((fun e1 => required.foldl
        (fun errs key =>
          match mapLookup payload key with
          | none => mapSet errs key "field is required"
          | some value =>
            if isEmptyJSONValue value then mapSet errs key "field is required"
            else errs) e1)
        (payload.foldl
          (fun errs kv =>
            if kv.1 ∈ allowed then errs else mapSet errs kv.1 "field is not editable") [])) k = _
  rw [validate_loop2_lookup, validate_loop1_lookup]
  simp [mapLookup]

/-- C2: create-payload validation flags exactly the payload keys outside the
mutable set with "field is not editable" and exactly the required-on-create
columns with a missing/null/blank-after-trim value with "field is required";
update validation (`required = nil`, as called by `adminUpdateOne`) performs
only the mutable-column check and never emits "field is required".  The
subset hypothesis is the registry invariant of C8 (required ⊆ mutable),
which every descriptor satisfies. -/
theorem c2_validateCRUDPayload_spec (payload : List (String × GoValue))
    (allowed required : List String) (hsub : ∀ c ∈ required, c ∈ allowed)
    (k : String) :
    (mapLookup (validateCRUDPayload payload allowed required) k =
        some "field is not editable" ↔ k ∈ payload.map Prod.fst ∧ k ∉ allowed) ∧
    (mapLookup (validateCRUDPayload payload allowed required) k =
        some "field is required" ↔ k ∈ required ∧ missingOrEmpty payload k = true) ∧
    (mapLookup (validateCRUDPayload payload allowed []) k =
        some "field is not editable" ↔ k ∈ payload.map Prod.fst ∧ k ∉ allowed) ∧
    (∀ msg, mapLookup (validateCRUDPayload payload allowed []) k = some msg →
      msg = "field is not editable") := by
  have hne : ("field is required" : String) ≠ "field is not editable" := by decide
  have hchar := validateCRUDPayload_lookup payload allowed required k
  have hchar0 := validateCRUDPayload_lookup payload allowed [] k
  simp only [List.not_mem_nil, false_and, if_false] at hchar0
  refine ⟨?_, ?_, ?_, ?_⟩
  · rw [hchar]
    by_cases hreq : k ∈ required ∧ missingOrEmpty payload k = true
    · rw [if_pos hreq]
      constructor
      · intro h
        exact absurd (Option.some.inj h) hne
      · intro h
        exact absurd (hsub k hreq.1) h.2
    · rw [if_neg hreq]
      by_cases hed : k ∈ payload.map Prod.fst ∧ k ∉ allowed
      · simp [hed]
      · simp [hed]
  · rw [hchar]
    by_cases hreq : k ∈ required ∧ missingOrEmpty payload k = true
    · simp [hreq]
    · rw [if_neg hreq]
      by_cases hed : k ∈ payload.map Prod.fst ∧ k ∉ allowed
      · simp [hed, hreq, Ne.symm hne]
      · simp [hed, hreq]
  · rw [hchar0]
    by_cases hed : k ∈ payload.map Prod.fst ∧ k ∉ allowed
    · simp [hed]
    · simp [hed]
  · rw [hchar0]
    by_cases hed : k ∈ payload.map Prod.fst ∧ k ∉ allowed
    · intro msg h
      rw [if_pos hed] at h
      exact (Option.some.inj h).symm
    · intro msg h
      rw [if_neg hed] at h
      exact absurd h (by simp)

/-- Witness for C2 at the spec's example: required columns `{title,
image_url}` of the portfolio descriptor and payload `{"title": "x"}` yield
the field error `image_url: "field is required"`. -/
theorem c2_validateCRUDPayload_spec_witness :
    "image_url" ∈ portfolioItemsCRUD.RequiredOnCreate ∧
      missingOrEmpty [("title", GoValue.str "x")] "image_url" = true ∧
      mapLookup
        (validateCRUDPayload [("title", GoValue.str "x")]
          portfolioItemsCRUD.MutableColumns portfolioItemsCRUD.RequiredOnCreate)
        "image_url" = some "field is required" :=
  ⟨by decide, by decide,
    ((c2_validateCRUDPayload_spec [("title", GoValue.str "x")]
        portfolioItemsCRUD.MutableColumns portfolioItemsCRUD.RequiredOnCreate
        (by decide) "image_url").2.1).mpr ⟨by decide, by decide⟩⟩

/-! ## Resource identifier parsing: C6 -/

theorem goHasPrefixStr_append (b s : String) : goHasPrefixStr (b ++ s) b = true := by
  simp [goHasPrefixStr, List.isPrefixOf_iff_prefix]

theorem goTrimPrefixStr_append (b s : String) : goTrimPrefixStr (b ++ s) b = s := by
  simp [goTrimPrefixStr, goHasPrefixStr_append, String.data_append, List.drop_left]

theorem append_ne_self_of_ne_empty (b s : String) (hs : s ≠ "") : b ++ s ≠ b := by
  intro h
  apply hs
  have : (b ++ s).length = b.length := congrArg String.length h
  rw [String.length_append] at this
  have hlen : s.length = 0 := by omega
  cases s with
  | mk data =>
    cases data with
    | nil => rfl
    | cons c cs => simp [String.length] at hlen

/-- C6: resource-identifier parsing gives precedence to a non-blank `id`
query parameter (the path is then ignored, the parameter parsed as the id,
non-integers rejected); with no query parameter, a trailing path segment
with an embedded slash or a non-integer trailing segment is rejected as
invalid, and with neither source present the collection case applies. -/
theorem c6_parseResourceID_spec (queryID urlPath basePath seg : String) :
    (goTrim queryID ≠ "" →
      (∀ p₁ p₂, parseResourceID queryID p₁ basePath = parseResourceID queryID p₂ basePath) ∧
      (∀ n, goParseInt64 (goTrim queryID) = some n →
        parseResourceID queryID urlPath basePath = .ident n) ∧
      (goParseInt64 (goTrim queryID) = none →
        parseResourceID queryID urlPath basePath = .invalid)) ∧
    (goTrim queryID = "" →
      goTrimSuffixStr (goTrim urlPath) "/" = goTrimSuffixStr basePath "/" ++ "/" ++ seg →
      seg ≠ "" →
      (goContainsChar seg '/' = true →
        parseResourceID queryID urlPath basePath = .invalid) ∧
      (goContainsChar seg '/' = false → goParseInt64 seg = none →
        parseResourceID queryID urlPath basePath = .invalid) ∧
      (∀ n, goContainsChar seg '/' = false → goParseInt64 seg = some n →
        parseResourceID queryID urlPath basePath = .ident n)) ∧
    (goTrim queryID = "" →
      goTrimSuffixStr (goTrim urlPath) "/" = goTrimSuffixStr basePath "/" →
      parseResourceID queryID urlPath basePath = .collection) := by
  refine ⟨?_, ?_, ?_⟩
  · intro hq
    refine ⟨?_, ?_, ?_⟩
    · intro p₁ p₂
      simp only [parseResourceID, if_pos hq]
    · intro n hn
      simp only [parseResourceID, if_pos hq, hn]
    · intro hn
      simp only [parseResourceID, if_pos hq, hn]
  · intro hq hdec hseg
    have hq' : ¬goTrim queryID ≠ "" := by simp [hq]
    have hb : goTrimSuffixStr basePath "/" ++ "/" ++ seg =
        (goTrimSuffixStr basePath "/" ++ "/") ++ seg := by
      rw [String.append_assoc]
    have hne : goTrimSuffixStr basePath "/" ++ "/" ++ seg ≠ goTrimSuffixStr basePath "/" := by
      intro h
      have hlen := congrArg String.length h
      rw [String.length_append, String.length_append] at hlen
      have : ("/" : String).length = 1 := rfl
      omega
    have hpre : goHasPrefixStr (goTrimSuffixStr basePath "/" ++ "/" ++ seg)
        (goTrimSuffixStr basePath "/" ++ "/") = true := by
      rw [hb]; exact goHasPrefixStr_append _ _
    have hidpart : goTrimPrefixStr (goTrimSuffixStr basePath "/" ++ "/" ++ seg)
        (goTrimSuffixStr basePath "/" ++ "/") = seg := by
      rw [hb]; exact goTrimPrefixStr_append _ _
    refine ⟨?_, ?_, ?_⟩
    · intro hslash
      simp [parseResourceID, hq', hdec, hne, hpre, hidpart, hseg, hslash]
    · intro hslash hn
      simp [parseResourceID, hq', hdec, hne, hpre, hidpart, hseg, hslash, hn]
    · intro n hslash hn
      simp [parseResourceID, hq', hdec, hne, hpre, hidpart, hseg, hslash, hn]
  · intro hq hpath
    have hq' : ¬goTrim queryID ≠ "" := by simp [hq]
    simp [parseResourceID, hq', hpath]

/-- Witness for C6: the query parameter `id=7` wins and parses; the path
`/admin/banners/3/x` with its embedded slash is rejected. -/
theorem c6_parseResourceID_spec_witness :
    parseResourceID "7" "/admin/banners/3" "/admin/banners" = .ident 7 ∧
    parseResourceID "" "/admin/banners/3/x" "/admin/banners" = .invalid :=
  ⟨((c6_parseResourceID_spec "7" "/admin/banners/3" "/admin/banners" "3").1
      (by decide)).2.1 7 (by decide),
   ((c6_parseResourceID_spec "" "/admin/banners/3/x" "/admin/banners" "3/x").2.1
      (by decide) (by decide) (by decide)).1 (by decide)⟩

/-! ## Empty-payload update: C7 -/

/-- C7: for every registered descriptor, an update with an empty payload is
rejected with the empty-payload error exactly when the descriptor does not
request an updated-at touch; with the touch requested, the built statement
succeeds, its only SET clause is `updated_at = NOW()`, and its only bound
argument is the row id of the WHERE clause — only the updated-at column of
the matched row changes. -/
theorem c7_empty_payload_update (cfg : tableCRUDConfig)
    (hcfg : cfg ∈ adminCRUDConfigs) (id : Int) :
    (adminUpdateBuild cfg [] id = .error .emptyPayload ↔ cfg.TouchUpdatedAt = false) ∧
    (cfg.TouchUpdatedAt = true →
      adminUpdateBuild cfg [] id = .ok
        { setClauses := ["updated_at = NOW()"],
          query := "WITH upd AS (UPDATE " ++ quoteTableName cfg.Table ++
            " SET updated_at = NOW() WHERE id = $1 RETURNING *) SELECT to_jsonb(upd) FROM upd",
          args := [GoValue.int id] }) := by
  obtain ⟨P, T, O, M, R, J, touch⟩ := cfg
  cases touch with
  | false =>
    constructor
    · simp [adminUpdateBuild, validateCRUDPayload, sortedMapKeys]
    · intro h
      exact absurd h (by simp)
  | true =>
    constructor
    · constructor
      · intro h
        exfalso
        revert h
        simp [adminUpdateBuild, validateCRUDPayload, sortedMapKeys, buildSetClauses]
      · intro h
        exact absurd h (by simp)
    · intro _
      show Except.ok
          ({ setClauses := [] ++ ["updated_at = NOW()"],
             query := "WITH upd AS (UPDATE " ++ quoteTableName T ++ " SET " ++
               String.intercalate ", " ([] ++ ["updated_at = NOW()"]) ++ " WHERE id = $" ++
               toString (([] : List GoValue).length + 1) ++
               " RETURNING *) SELECT to_jsonb(upd) FROM upd",
             args := [] ++ [GoValue.int id] } : UpdateStatement) = _
      simp only [List.nil_append, List.length_nil]
      have hq : "WITH upd AS (UPDATE " ++ quoteTableName T ++ " SET " ++
          String.intercalate ", " ["updated_at = NOW()"] ++ " WHERE id = $" ++
          toString (0 + 1) ++ " RETURNING *) SELECT to_jsonb(upd) FROM upd" =
          "WITH upd AS (UPDATE " ++ quoteTableName T ++
            " SET updated_at = NOW() WHERE id = $1 RETURNING *) SELECT to_jsonb(upd) FROM upd" := by
        simp only [String.append_assoc]
        congr 2
      rw [hq]

/-- Witness for C7: the banners descriptor (no updated-at touch) rejects the
empty update as an empty payload; the tuning descriptor (touch requested)
builds an update whose single SET clause is the updated-at touch. -/
theorem c7_empty_payload_update_witness :
    bannersCRUD ∈ adminCRUDConfigs ∧ tuningCRUD ∈ adminCRUDConfigs ∧
    adminUpdateBuild bannersCRUD [] 5 = .error .emptyPayload ∧
    adminUpdateBuild tuningCRUD [] 5 = .ok
      { setClauses := ["updated_at = NOW()"],
        query := "WITH upd AS (UPDATE " ++ quoteTableName tuningCRUD.Table ++
          " SET updated_at = NOW() WHERE id = $1 RETURNING *) SELECT to_jsonb(upd) FROM upd",
        args := [GoValue.int 5] } :=
  ⟨by decide, by decide,
    (c7_empty_payload_update bannersCRUD (by decide) 5).1.mpr rfl,
    (c7_empty_payload_update tuningCRUD (by decide) 5).2 rfl⟩

/-! ## Statement determinism: C10 -/

theorem eq_nil_iff_lookup_none {α : Type} (m : List (String × α)) :
    m = [] ↔ ∀ k, mapLookup m k = none := by
  constructor
  · intro h k; subst h; rfl
  · intro h
    cases m with
    | nil => rfl
    | cons p rest =>
      have hp := h p.1
      simp [mapLookup] at hp

theorem mapLookup_some_iff {α : Type} (m : List (String × α))
    (hnd : (m.map Prod.fst).Nodup) (k : String) (v : α) :
    mapLookup m k = some v ↔ (k, v) ∈ m := by
  induction m with
  | nil => simp [mapLookup]
  | cons p rest ih =>
    obtain ⟨k0, v0⟩ := p
    simp only [List.map_cons, List.nodup_cons] at hnd
    by_cases hk : k0 = k
    · subst hk
      simp only [mapLookup, if_pos rfl, List.mem_cons]
      constructor
      · intro h
        left
        have := Option.some.inj h
        rw [this]
      · intro h
        rcases h with heq | hmem
        · have : v = v0 := (Prod.mk.injEq _ _ _ _ ▸ heq).2
          rw [this]
          simp
        · exfalso
          exact hnd.1 (List.mem_map.mpr ⟨(k0, v), hmem, rfl⟩)
    · simp only [mapLookup, if_neg hk, List.mem_cons, ih hnd.2]
      constructor
      · intro h; exact Or.inr h
      · intro h
        rcases h with heq | hmem
        · exact absurd ((Prod.mk.injEq _ _ _ _ ▸ heq).1.symm) hk
        · exact hmem

theorem mapLookup_eq_of_perm {α : Type} (p1 p2 : List (String × α))
    (hperm : p1.Perm p2) (h1 : (p1.map Prod.fst).Nodup) (k : String) :
    mapLookup p1 k = mapLookup p2 k := by
  have h2 : (p2.map Prod.fst).Nodup := ((hperm.map Prod.fst).nodup_iff).mp h1
  cases hl : mapLookup p1 k with
  | some v =>
    have hmem := (mapLookup_some_iff p1 h1 k v).mp hl
    have := (mapLookup_some_iff p2 h2 k v).mpr (hperm.mem_iff.mp hmem)
    rw [this]
  | none =>
    have h1n := (mapLookup_eq_none_iff_not_mem p1 k).mp hl
    have h2n : k ∉ p2.map Prod.fst := fun hm =>
      h1n (((hperm.map Prod.fst).mem_iff).mpr hm)
    rw [(mapLookup_eq_none_iff_not_mem p2 k).mpr h2n]

theorem sortedMapKeys_eq_of_perm {α : Type} (p1 p2 : List (String × α))
    (hperm : p1.Perm p2) : sortedMapKeys p1 = sortedMapKeys p2 := by
  have hs1 : List.Sorted (· ≤ ·) (sortedMapKeys p1) := List.sorted_insertionSort _ _
  have hs2 : List.Sorted (· ≤ ·) (sortedMapKeys p2) := List.sorted_insertionSort _ _
  have hp : List.Perm (sortedMapKeys p1) (sortedMapKeys p2) :=
    (List.perm_insertionSort _ _).trans
      ((hperm.map Prod.fst).trans (List.perm_insertionSort _ _).symm)
  exact List.eq_of_perm_of_sorted hp hs1 hs2

theorem buildSetClauses_congr (cfg : tableCRUDConfig)
    (p1 p2 : List (String × GoValue))
    (hlook : ∀ k, mapLookup p1 k = mapLookup p2 k) :
    ∀ (keys : List String) (idx : Nat),
      buildSetClauses cfg p1 keys idx = buildSetClauses cfg p2 keys idx := by
  intro keys
  induction keys with
  | nil => intro idx; rfl
  | cons key ks ih =>
    intro idx
    simp only [buildSetClauses, hlook key, ih]

theorem buildInsertParts_congr (cfg : tableCRUDConfig)
    (p1 p2 : List (String × GoValue))
    (hlook : ∀ k, mapLookup p1 k = mapLookup p2 k) :
    ∀ (keys : List String) (idx : Nat),
      buildInsertParts cfg p1 keys idx = buildInsertParts cfg p2 keys idx := by
  intro keys
  induction keys with
  | nil => intro idx; rfl
  | cons key ks ih =>
    intro idx
    simp only [buildInsertParts, hlook key, ih]

theorem validate_nil_transfer (allowed required : List String)
    (p1 p2 : List (String × GoValue))
    (hlook : ∀ k, mapLookup p1 k = mapLookup p2 k)
    (hmem : ∀ k, k ∈ p1.map Prod.fst ↔ k ∈ p2.map Prod.fst) :
    validateCRUDPayload p1 allowed required = [] →
      validateCRUDPayload p2 allowed required = [] := by
  intro h1
  rw [eq_nil_iff_lookup_none] at h1 ⊢
  intro k
  have hk := h1 k
  rw [validateCRUDPayload_lookup] at hk ⊢
  have hmiss : missingOrEmpty p1 k = missingOrEmpty p2 k := by
    simp [missingOrEmpty, hlook k]
  by_cases hreq : k ∈ required ∧ missingOrEmpty p2 k = true
  · exfalso
    have hreq1 : k ∈ required ∧ missingOrEmpty p1 k = true :=
      ⟨hreq.1, by rw [hmiss]; exact hreq.2⟩
    rw [if_pos hreq1] at hk
    simp at hk
  · rw [if_neg hreq]
    by_cases hed : k ∈ p2.map Prod.fst ∧ k ∉ allowed
    · exfalso
      have hed1 : k ∈ p1.map Prod.fst ∧ k ∉ allowed := ⟨(hmem k).mpr hed.1, hed.2⟩
      have hreq1 : ¬(k ∈ required ∧ missingOrEmpty p1 k = true) := by
        rw [hmiss]; exact hreq
      rw [if_neg hreq1, if_pos hed1] at hk
      simp at hk
    · rw [if_neg hed]

/-- C10: admin create/update statement building is driven by the
lexicographically sorted payload keys, so two payloads that are equal as
key-value maps (a permutation of each other, modelling Go's arbitrary map
iteration order) produce the identical statement text and bound-argument
sequence.  The validation-pass hypotheses scope the conclusion to requests
that reach statement building; rejected payloads never produce a statement. -/
theorem c10_statement_determinism (cfg : tableCRUDConfig)
    (p1 p2 : List (String × GoValue)) (id : Int)
    (hperm : p1.Perm p2) (hnd : (p1.map Prod.fst).Nodup) :
    sortedMapKeys p1 = sortedMapKeys p2 ∧
    (validateCRUDPayload p1 cfg.MutableColumns cfg.RequiredOnCreate = [] →
      adminCreateBuild cfg p1 = adminCreateBuild cfg p2) ∧
    (validateCRUDPayload p1 cfg.MutableColumns [] = [] →
      adminUpdateBuild cfg p1 id = adminUpdateBuild cfg p2 id) := by
  have hlook := mapLookup_eq_of_perm p1 p2 hperm hnd
  have hmem : ∀ k, k ∈ p1.map Prod.fst ↔ k ∈ p2.map Prod.fst := fun k =>
    (hperm.map Prod.fst).mem_iff
  have hkeys := sortedMapKeys_eq_of_perm p1 p2 hperm
  refine ⟨hkeys, ?_, ?_⟩
  · intro hv1
    have hv2 := validate_nil_transfer cfg.MutableColumns cfg.RequiredOnCreate
      p1 p2 hlook hmem hv1
    simp only [adminCreateBuild, hv1, hv2, hkeys,
      buildInsertParts_congr cfg p1 p2 hlook]
  · intro hv1
    have hv2 := validate_nil_transfer cfg.MutableColumns [] p1 p2 hlook hmem hv1
    simp only [adminUpdateBuild, hv1, hv2, hkeys,
      buildSetClauses_congr cfg p1 p2 hlook]

/-- Witness for C10: the two orderings of the payload
`{image_url: "u", title: "x"}` produce identical create and update
statements for the portfolio descriptor. -/
theorem c10_statement_determinism_witness :
    sortedMapKeys [("image_url", GoValue.str "u"), ("title", GoValue.str "x")] =
      sortedMapKeys [("title", GoValue.str "x"), ("image_url", GoValue.str "u")] ∧
    adminCreateBuild portfolioItemsCRUD
        [("image_url", GoValue.str "u"), ("title", GoValue.str "x")] =
      adminCreateBuild portfolioItemsCRUD
        [("title", GoValue.str "x"), ("image_url", GoValue.str "u")] ∧
    adminUpdateBuild portfolioItemsCRUD
        [("image_url", GoValue.str "u"), ("title", GoValue.str "x")] 7 =
      adminUpdateBuild portfolioItemsCRUD
        [("title", GoValue.str "x"), ("image_url", GoValue.str "u")] 7 :=
  have h := c10_statement_determinism portfolioItemsCRUD
    [("image_url", GoValue.str "u"), ("title", GoValue.str "x")]
    [("title", GoValue.str "x"), ("image_url", GoValue.str "u")] 7
    (List.Perm.swap ("title", GoValue.str "x") ("image_url", GoValue.str "u") [])
    (by decide)
  ⟨h.1, h.2.1 (by decide), h.2.2 (by decide)⟩

/-! ## Dedup / blank-entry properties of the projection collections: C3 -/

theorem mem_specDedupFirstWins : ∀ (l : List String) (y : String),
    y ∈ specDedupFirstWins l ↔ y ∈ l := by
  intro l
  induction l using specDedupFirstWins.induct with
  | case1 => intro y; rw [specDedupFirstWins]
  | case2 x xs ih =>
    intro y
    rw [specDedupFirstWins]
    simp only [List.mem_cons, ih]
    by_cases hy : y = x
    · simp [hy]
    · simp [hy, List.mem_filter]

theorem nodup_specDedupFirstWins : ∀ l : List String, (specDedupFirstWins l).Nodup := by
  intro l
  induction l using specDedupFirstWins.induct with
  | case1 => rw [specDedupFirstWins]; exact List.nodup_nil
  | case2 x xs ih =>
    rw [specDedupFirstWins]
    refine List.nodup_cons.mpr ⟨?_, ih⟩
    intro hx
    have := (mem_specDedupFirstWins _ x).mp hx
    simp [List.mem_filter] at this

theorem filter_notMem_cons_eq (x : String) (seen : List String) (l : List String) :
    (l.filter (fun c => c ∉ seen)).filter (fun y => y ≠ x) =
      l.filter (fun c => c ∉ x :: seen) := by
  rw [List.filter_filter]
  apply List.filter_congr
  intro a _
  by_cases h1 : a = x <;> by_cases h2 : a ∈ seen <;> simp [h1, h2]

theorem uniqueNonEmptyGo_eq :
    ∀ (vs seen : List String),
      uniqueNonEmptyGo seen vs =
        specDedupFirstWins
          (((vs.map goTrim).filter (fun c => c ≠ "")).filter (fun c => c ∉ seen)) := by
  intro vs
  induction vs with
  | nil => intro seen; simp [uniqueNonEmptyGo, specDedupFirstWins]
  | cons v rest ih =>
    intro seen
    show (if goTrim v = "" then uniqueNonEmptyGo seen rest
      else if goTrim v ∈ seen then uniqueNonEmptyGo seen rest
      else goTrim v :: uniqueNonEmptyGo (goTrim v :: seen) rest) = _
    rw [List.map_cons]
    by_cases h1 : goTrim v = ""
    · rw [if_pos h1, List.filter_cons_of_neg (by simp [h1]), ih]
    · rw [if_neg h1, List.filter_cons_of_pos (by simp [h1])]
      by_cases h2 : goTrim v ∈ seen
      · rw [if_pos h2, List.filter_cons_of_neg (by simp [h2]), ih]
      · rw [if_neg h2, List.filter_cons_of_pos (by simp [h2])]
        rw [specDedupFirstWins, ih (goTrim v :: seen), filter_notMem_cons_eq]

theorem uniqueNonEmpty_eq_specDedup (values : List String) :
    uniqueNonEmpty values =
      specDedupFirstWins ((values.map goTrim).filter (fun s => s ≠ "")) := by
  show uniqueNonEmptyGo [] values = _
  rw [uniqueNonEmptyGo_eq]
  have hid : ((values.map goTrim).filter (fun c => c ≠ "")).filter
      (fun c => c ∉ ([] : List String)) =
      (values.map goTrim).filter (fun c => c ≠ "") := by
    rw [List.filter_eq_self]
    intro a _
    simp
  rw [hid]

theorem nodup_uniqueNonEmpty (values : List String) : (uniqueNonEmpty values).Nodup := by
  rw [uniqueNonEmpty_eq_specDedup]
  exact nodup_specDedupFirstWins _

theorem mem_uniqueNonEmpty (values : List String) (x : String)
    (hx : x ∈ uniqueNonEmpty values) : goTrim x = x ∧ x ≠ "" := by
  rw [uniqueNonEmpty_eq_specDedup] at hx
  have hmem := (mem_specDedupFirstWins _ x).mp hx
  rw [List.mem_filter] at hmem
  obtain ⟨hmap, hne⟩ := hmem
  obtain ⟨y, _, hy⟩ := List.mem_map.mp hmap
  constructor
  · rw [← hy]
    exact goTrim_idem y
  · simpa using hne

theorem mem_collectNonEmptyTrimmed :
    ∀ (items : List String) (x : String), x ∈ collectNonEmptyTrimmed items →
      goTrim x = x ∧ x ≠ "" := by
  intro items
  induction items with
  | nil => intro x hx; simp [collectNonEmptyTrimmed] at hx
  | cons it rest ih =>
    intro x hx
    simp only [collectNonEmptyTrimmed] at hx
    by_cases h : goTrim it = ""
    · rw [if_pos h] at hx
      exact ih x hx
    · rw [if_neg h] at hx
      rcases List.mem_cons.mp hx with heq | hmem
      · subst heq
        exact ⟨goTrim_idem it, h⟩
      · exact ih x hmem

theorem parseStringArray_elems (raw : String) :
    ∀ x ∈ parseStringArray raw, goTrim x = x ∧ x ≠ "" := by
  intro x hx
  by_cases h : raw.length = 0
  · simp [parseStringArray, h] at hx
  · cases h1 : unmarshalStringList raw with
    | some items =>
      simp only [parseStringArray, if_neg h, h1] at hx
      exact mem_collectNonEmptyTrimmed items x hx
    | none =>
      cases h2 : unmarshalGoString raw with
      | none =>
        simp only [parseStringArray, if_neg h, h1, h2] at hx
        simp at hx
      | some encoded =>
        cases h3 : unmarshalStringList encoded with
        | none =>
          simp only [parseStringArray, if_neg h, h1, h2, h3] at hx
          simp at hx
        | some nested =>
          simp only [parseStringArray, if_neg h, h1, h2, h3] at hx
          exact mem_collectNonEmptyTrimmed nested x hx

theorem parsePerformedWorks_props (raw : String) :
    (parsePerformedWorks raw).Nodup ∧
      ∀ x ∈ parsePerformedWorks raw, goTrim x = x ∧ x ≠ "" := by
  by_cases h : raw.length = 0
  · simp [parsePerformedWorks, h]
  · simp only [parsePerformedWorks, if_neg h]
    cases h1 : unmarshalStringList raw with
    | some xs =>
      exact ⟨nodup_uniqueNonEmpty xs, fun x hx => mem_uniqueNonEmpty xs x hx⟩
    | none =>
      cases h2 : unmarshalAnyList raw with
      | none => simp
      | some vs =>
        exact ⟨nodup_uniqueNonEmpty _, fun x hx => mem_uniqueNonEmpty _ x hx⟩

/-- C3 counterexample: `parseStringArray` does not deduplicate — decoding
the gallery column `["a","a"]` keeps both copies, so not every projection
collection is duplicate-free as the claim states. -/
theorem c3_counterexample_parseStringArray_dup :
    parseStringArray "[\"a\",\"a\"]" = ["a", "a"] ∧
      ¬(parseStringArray "[\"a\",\"a\"]").Nodup :=
  ⟨rfl, by decide⟩

/-- C3 (amended): the fallback collection (`uniqueNonEmpty`) and the
performed-works collection are deduplicated order-preservingly with the
first occurrence winning and contain no blank or whitespace-only entries;
the gallery-images collection (`parseStringArray`) drops blank entries and
trims the rest but preserves duplicates. -/
theorem c3_projection_collections (values : List String) (raw : String) :
    uniqueNonEmpty values =
      specDedupFirstWins ((values.map goTrim).filter (fun s => s ≠ "")) ∧
    (uniqueNonEmpty values).Nodup ∧
    (∀ x ∈ uniqueNonEmpty values, goTrim x = x ∧ x ≠ "") ∧
    (parsePerformedWorks raw).Nodup ∧
    (∀ x ∈ parsePerformedWorks raw, goTrim x = x ∧ x ≠ "") ∧
    (∀ x ∈ parseStringArray raw, goTrim x = x ∧ x ≠ "") :=
  ⟨uniqueNonEmpty_eq_specDedup values, nodup_uniqueNonEmpty values,
    fun x hx => mem_uniqueNonEmpty values x hx,
    (parsePerformedWorks_props raw).1,
    (parsePerformedWorks_props raw).2,
    fun x hx => parseStringArray_elems raw x hx⟩

/-- Witness for C3 (amended) at concrete inputs: the fallback collection of
`[" a", "a", "", "b"]` and the gallery parse of `[" a","a"]`. -/
theorem c3_projection_collections_witness :
    uniqueNonEmpty [" a", "a", "", "b"] =
      specDedupFirstWins ((([" a", "a", "", "b"].map goTrim)).filter (fun s => s ≠ "")) ∧
    ("a" ∈ parseStringArray "[\" a\",\"a\"]") ∧
    goTrim "a" = "a" ∧ "a" ≠ "" :=
  ⟨(c3_projection_collections [" a", "a", "", "b"] "[\" a\",\"a\"]").1,
    by decide,
    (c3_projection_collections [" a", "a", "", "b"] "[\" a\",\"a\"]").2.2.2.2.2
      "a" (by decide)⟩

/-! ## Performed-works parsing: C4 -/

theorem jparse_empty : jparse "" = none := rfl

theorem string_length_zero (s : String) (h : s.length = 0) : s = "" := by
  cases s with
  | mk data =>
    cases data with
    | nil => rfl
    | cons c cs => simp [String.length] at h

/-- Decoding an array into `[]string` and collecting the same array through
the `[]any` element loop yield the same entries once blanks are dropped:
string elements are shared, and the `null` elements that `[]string` decoding
turns into `""` are dropped by the blank filter. -/
theorem elemStrings_collectWorks_eq :
    ∀ (vs : List GoValue) (xs : List String), vs.mapM elemAsGoString = some xs →
      (xs.map goTrim).filter (fun s => s ≠ "") =
        ((collectWorks vs).map goTrim).filter (fun s => s ≠ "") := by
  intro vs
  induction vs with
  | nil =>
    intro xs h
    simp only [List.mapM_nil, pure, Option.some.injEq] at h
    subst h
    rfl
  | cons v rest ih =>
    intro xs h
    rw [List.mapM_cons] at h
    cases hv : elemAsGoString v with
    | none => rw [hv] at h; simp at h
    | some s =>
      rw [hv] at h
      cases hr : rest.mapM elemAsGoString with
      | none => rw [hr] at h; simp at h
      | some xs' =>
        rw [hr] at h
        simp only [bind, Option.bind, pure, Option.some.injEq] at h
        subst h
        cases v with
        | str s0 =>
          have hs' : s0 = s := by
            have h2 := hv
            simp [elemAsGoString] at h2
            exact h2
          subst hs'
          show ((s0 :: xs').map goTrim).filter (fun s => s ≠ "") = _
          rw [show collectWorks (.str s0 :: rest) = s0 :: collectWorks rest from rfl]
          rw [List.map_cons, List.map_cons]
          by_cases hblank : goTrim s0 = ""
          · rw [List.filter_cons_of_neg (by simp [hblank]),
              List.filter_cons_of_neg (by simp [hblank])]
            exact ih xs' hr
          · rw [List.filter_cons_of_pos (by simp [hblank]),
              List.filter_cons_of_pos (by simp [hblank])]
            rw [ih xs' hr]
        | null =>
          have hs : s = "" := by
            have := hv
            simp [elemAsGoString] at this
            exact this.symm
          subst hs
          show ((("" : String) :: xs').map goTrim).filter (fun s => s ≠ "") = _
          rw [show collectWorks (.null :: rest) = collectWorks rest from rfl]
          rw [List.map_cons]
          rw [List.filter_cons_of_neg (by simp [show goTrim "" = "" from rfl])]
          exact ih xs' hr
        | bool b => simp [elemAsGoString] at hv
        | num q => simp [elemAsGoString] at hv
        | int n => simp [elemAsGoString] at hv
        | nanNum => simp [elemAsGoString] at hv
        | arr elems => simp [elemAsGoString] at hv
        | obj fields => simp [elemAsGoString] at hv

/-- C4 counterexample: the mixed array `["a",{"step":"b"}]` is a valid JSON
array of neither pure shape (it is not decodable as `[]string`, and it has a
string element), yet performed-works parsing returns `["a","b"]`, not the
empty collection the claim prescribes for such inputs. -/
theorem c4_counterexample_mixed_array :
    parsePerformedWorks "[\"a\",\x7b\"step\":\"b\"\x7d]" = ["a", "b"] ∧
    unmarshalStringList "[\"a\",\x7b\"step\":\"b\"\x7d]" = none ∧
    parsePerformedWorks "[\"a\",\x7b\"step\":\"b\"\x7d]" ≠ [] :=
  ⟨rfl, rfl, by decide⟩

/-- C4 (amended): performed-works parsing accepts any JSON array — string
elements contribute themselves and object elements contribute the first
non-blank string value among the keys step, title, name, text, description
in that priority order (other elements contribute nothing); the collected
entries are returned trimmed, deduplicated (first occurrence wins) and
without blanks; JSON `null` and any input that is not a valid JSON array
yield an empty collection rather than an error. -/
theorem c4_parsePerformedWorks_spec (raw : String) :
    (∀ vs, jparse raw = some (.arr vs) →
      parsePerformedWorks raw = uniqueNonEmpty (collectWorks vs)) ∧
    (jparse raw = some .null → parsePerformedWorks raw = []) ∧
    (jparse raw = none → parsePerformedWorks raw = []) ∧
    (∀ v, jparse raw = some v → (∀ vs, v ≠ .arr vs) → v ≠ .null →
      parsePerformedWorks raw = []) := by
  have hlen_ne : jparse raw ≠ none → ¬raw.length = 0 := by
    intro hj h0
    exact hj (string_length_zero raw h0 ▸ jparse_empty)
  refine ⟨?_, ?_, ?_, ?_⟩
  · intro vs hj
    have hlen : ¬raw.length = 0 := hlen_ne (by rw [hj]; exact Option.noConfusion)
    have hsl : unmarshalStringList raw = vs.mapM elemAsGoString := by
      simp [unmarshalStringList, hj]
    have hal : unmarshalAnyList raw = some vs := by
      simp [unmarshalAnyList, hj]
    cases hm : vs.mapM elemAsGoString with
    | some xs =>
      simp only [parsePerformedWorks, if_neg hlen, hsl, hm]
      rw [uniqueNonEmpty_eq_specDedup, uniqueNonEmpty_eq_specDedup,
        elemStrings_collectWorks_eq vs xs hm]
    | none =>
      simp only [parsePerformedWorks, if_neg hlen, hsl, hm, hal]
  · intro hj
    have hlen : ¬raw.length = 0 := hlen_ne (by rw [hj]; exact Option.noConfusion)
    have hsl : unmarshalStringList raw = some [] := by
      simp [unmarshalStringList, hj]
    simp only [parsePerformedWorks, if_neg hlen, hsl]
    rfl
  · intro hj
    by_cases hlen : raw.length = 0
    · simp [parsePerformedWorks, hlen]
    · have hsl : unmarshalStringList raw = none := by
        simp [unmarshalStringList, hj]
      have hal : unmarshalAnyList raw = none := by
        simp [unmarshalAnyList, hj]
      simp only [parsePerformedWorks, if_neg hlen, hsl, hal]
  · intro v hj harr hnull
    have hsl : unmarshalStringList raw = none := by
      cases v with
      | null => exact absurd rfl hnull
      | arr vs => exact absurd rfl (harr vs)
      | bool b => simp [unmarshalStringList, hj]
      | num q => simp [unmarshalStringList, hj]
      | int n => simp [unmarshalStringList, hj]
      | nanNum => simp [unmarshalStringList, hj]
      | str s => simp [unmarshalStringList, hj]
      | obj fields => simp [unmarshalStringList, hj]
    have hal : unmarshalAnyList raw = none := by
      cases v with
      | null => exact absurd rfl hnull
      | arr vs => exact absurd rfl (harr vs)
      | bool b => simp [unmarshalAnyList, hj]
      | num q => simp [unmarshalAnyList, hj]
      | int n => simp [unmarshalAnyList, hj]
      | nanNum => simp [unmarshalAnyList, hj]
      | str s => simp [unmarshalAnyList, hj]
      | obj fields => simp [unmarshalAnyList, hj]
    by_cases hlen : raw.length = 0
    · simp [parsePerformedWorks, hlen]
    · simp only [parsePerformedWorks, if_neg hlen, hsl, hal]

/-- Witness for C4 at the spec's example: an array of objects with `step`
and `title` keys yields `["Diagnostics", "Calibration"]`. -/
theorem c4_parsePerformedWorks_spec_witness :
    jparse "[\x7b\"step\":\"Diagnostics\"\x7d,\x7b\"title\":\"Calibration\"\x7d]" =
      some (.arr [.obj [("step", .str "Diagnostics")],
        .obj [("title", .str "Calibration")]]) ∧
    parsePerformedWorks "[\x7b\"step\":\"Diagnostics\"\x7d,\x7b\"title\":\"Calibration\"\x7d]" =
      uniqueNonEmpty (collectWorks [.obj [("step", .str "Diagnostics")],
        .obj [("title", .str "Calibration")]]) ∧
    uniqueNonEmpty (collectWorks [.obj [("step", GoValue.str "Diagnostics")],
        .obj [("title", GoValue.str "Calibration")]]) = ["Diagnostics", "Calibration"] :=
  ⟨rfl,
    (c4_parsePerformedWorks_spec
        "[\x7b\"step\":\"Diagnostics\"\x7d,\x7b\"title\":\"Calibration\"\x7d]").1
      [.obj [("step", .str "Diagnostics")], .obj [("title", .str "Calibration")]] rfl,
    rfl⟩
